import Mathlib

/-!
Verification of the WordSearch environment
(`textarena/envs/single_player/WordSearch/env.py`).

The Python code is shallowly embedded below.  Grids are lists of rows of
characters (`grid[row][col]`), exactly as in the source.  Reading a cell
that lies outside the grid yields the sentinel `offGrid` (the Python code
would raise an `IndexError` there; every code path the generator takes
stays in bounds, and the sentinel makes the legality check fail at any
out-of-range cell just as an exception would abort the placement).
Randomness (`random.choice`, `random.shuffle`, candidate enumeration) is
modelled by explicit parameters: the placement phase takes the list of
candidate positions the Python loop actually tries, and the filler takes
an oracle choosing a letter index per cell.
-/

namespace WordSearch

/-! ## The grid (`List[List[str]]` in the source, one `Char` per cell) -/

/-- Direction of a placed word: the Python strings "across" / "down". -/
inductive Direction
  | across
  | down
deriving DecidableEq, Repr

/-- One grid cell holds one character. -/
abbrev Cell := Char

/-- A word is the list of its characters (a Python `str`). -/
abbrev GameWord := List Char

/-- The board: a list of rows, `grid[row][col]`. -/
abbrev Board := List (List Cell)

/-- The empty-cell marker "." used by `_create_empty_grid`. -/
def emptyMarker : Cell := '.'

/-- Sentinel returned when reading outside the grid (Python would raise
`IndexError`; no letter nor the empty marker ever equals it). -/
def offGrid : Cell := Char.ofNat 0

/-- Read `grid[row][col]` (`offGrid` when out of range). -/
def getCell (g : Board) (r c : Nat) : Cell := (g.getD r []).getD c offGrid

/-- Write `grid[row][col] = ch` (no-op when out of range, where Python
would raise). -/
def setCell (g : Board) (r c : Nat) (ch : Cell) : Board :=
  g.set r ((g.getD r []).set c ch)

/-- Number of rows, `len(grid)`. -/
def gridHeight (g : Board) : Nat := g.length

/-- Number of columns of the first row, `len(grid[0])`. -/
def gridWidth (g : Board) : Nat := (g.getD 0 []).length

/-! ## Word placement (`_can_place_word`, `_place_word_on_grid`) -/

/-- Next cell along a direction: across moves right, down moves down. -/
def stepPos (d : Direction) (p : Nat × Nat) : Nat × Nat :=
  match d with
  | .across => (p.1, p.2 + 1)
  | .down => (p.1 + 1, p.2)

/-- Cell occupied by the letter at offset `i` of a word anchored at `p`,
mirroring `grid[row][col + i]` (across) / `grid[row + i][col]` (down). -/
def posAt (d : Direction) (p : Nat × Nat) (i : Nat) : Nat × Nat :=
  match d with
  | .across => (p.1, p.2 + i)
  | .down => (p.1 + i, p.2)

/-- Cell-by-cell part of `_can_place_word`: every cell the word would
occupy is empty or already holds the same letter. -/
def cellsFree (g : Board) (d : Direction) : Nat × Nat → GameWord → Bool
  | _, [] => true
  | p, ch :: rest =>
    (getCell g p.1 p.2 == emptyMarker || getCell g p.1 p.2 == ch) &&
      cellsFree g d (stepPos d p) rest

/-- Python `_can_place_word`: bounds check for the direction, then the
conflict check on each occupied cell. -/
def canPlaceWord (g : Board) (w : GameWord) (d : Direction) (row col : Nat) : Bool :=
  match d with
  | .across => decide (col + w.length ≤ gridWidth g) && cellsFree g .across (row, col) w
  | .down => decide (row + w.length ≤ gridHeight g) && cellsFree g .down (row, col) w

/-- Cell-by-cell part of `_place_word_on_grid`: write each letter at its
offset along the direction. -/
def placeCells (g : Board) (d : Direction) : Nat × Nat → GameWord → Board
  | _, [] => g
  | p, ch :: rest => placeCells (setCell g p.1 p.2 ch) d (stepPos d p) rest

/-- Python `_place_word_on_grid`. -/
def placeWordOnGrid (g : Board) (w : GameWord) (d : Direction) (row col : Nat) : Board :=
  placeCells g d (row, col) w

/-- An uppercase ASCII letter (what `word.upper()` of a dictionary word
holds at every index). -/
def goodChar (ch : Char) : Prop := 'A'.toNat ≤ ch.toNat ∧ ch.toNat ≤ 'Z'.toNat

instance (ch : Char) : Decidable (goodChar ch) := by
  unfold goodChar
  infer_instance

/-- Every character of the word is an uppercase letter. -/
def goodWord (w : GameWord) : Prop := ∀ ch ∈ w, goodChar ch

instance (w : GameWord) : Decidable (goodWord w) := by
  unfold goodWord
  infer_instance

/-! ## Grid sizing and creation (`_determine_initial_grid_size`,
`_create_empty_grid`) -/

/-- Python `max(len(word) for word in words)` (0 on the empty list, where
Python would raise `ValueError`). -/
def maxWordLength (ws : List GameWord) : Nat :=
  ws.foldl (fun m w => max m w.length) 0

/-- Python `round(n * 0.5)` for natural `n`: the float `n * 0.5` is exact,
and `round` rounds half-integers to the nearest even integer (banker's
rounding), so `round(4.5) = 4`. -/
def roundHalfNat (n : Nat) : Nat :=
  if n % 2 = 0 then n / 2
  else if (n / 2) % 2 = 0 then n / 2 else n / 2 + 1

/-- Python `_determine_initial_grid_size`: `round(max_length * 1.5)`,
i.e. `round((3 * max_length) * 0.5)`. -/
def determineInitialGridSize (ws : List GameWord) : Nat :=
  roundHalfNat (3 * maxWordLength ws)

/-- Python `_create_empty_grid`. -/
def createEmptyGrid (size : Nat) : Board :=
  List.replicate size (List.replicate size emptyMarker)

/-- Modelled from the spec: the sizing rule the spec pins down instead,
"round half up, so 4.5 → 5", applied to `1.5 × L = (3 L) / 2`. -/
def roundHalfUpGridSize (maxLen : Nat) : Nat := (3 * maxLen + 1) / 2

/-! ## Filling (`_fill_empty_cells`) -/

/-- Python `string.ascii_uppercase`. -/
def asciiUppercase : List Char :=
  ['A', 'B', 'C', 'D', 'E', 'F', 'G', 'H', 'I', 'J', 'K', 'L', 'M',
   'N', 'O', 'P', 'Q', 'R', 'S', 'T', 'U', 'V', 'W', 'X', 'Y', 'Z']

/-- Inner loop of `_fill_empty_cells` on one row, starting at column `c`;
`pick r c` is the index `random.choice(string.ascii_uppercase)` draws for
that cell. -/
def fillRowFrom (pick : Nat → Nat → Fin 26) (r : Nat) : Nat → List Cell → List Cell
  | _, [] => []
  | c, cell :: rest =>
    (if cell = emptyMarker then asciiUppercase.getD (pick r c).1 'A' else cell) ::
      fillRowFrom pick r (c + 1) rest

/-- Outer loop of `_fill_empty_cells`, starting at row `r`. -/
def fillRowsFrom (pick : Nat → Nat → Fin 26) : Nat → Board → Board
  | _, [] => []
  | r, row :: rest => fillRowFrom pick r 0 row :: fillRowsFrom pick (r + 1) rest

/-- Python `_fill_empty_cells`: replace every "." cell by a chosen
uppercase letter. -/
def fillEmptyCells (pick : Nat → Nat → Fin 26) (g : Board) : Board :=
  fillRowsFrom pick 0 g

/-! ## The generation pipeline (`_generate_word_search`) -/

/-- A word placed on the grid: an entry of the `placed_words` dict,
`word: (row, col, direction)`. -/
structure PlacedWord where
  text : GameWord
  row : Nat
  col : Nat
  dir : Direction
deriving DecidableEq, Repr

/-- The `placed_words` index, in insertion order. -/
abbrev PlacementIndex := List PlacedWord

/-- One candidate position tried by `_generate_word_search` for a word
(the centre anchor for the first word, an overlap candidate, or a cell of
the exhaustive row-major scan). -/
structure Attempt where
  text : GameWord
  dir : Direction
  row : Nat
  col : Nat
deriving DecidableEq, Repr

/-- One guarded placement attempt: exactly the code path
`if self._can_place_word(...): self._place_word_on_grid(...);
self.placed_words[word] = (row, col, direction)`. -/
def tryPlace (gi : Board × PlacementIndex) (a : Attempt) : Board × PlacementIndex :=
  if canPlaceWord gi.1 a.text a.dir a.row a.col then
    (placeWordOnGrid gi.1 a.text a.dir a.row a.col,
      gi.2 ++ [⟨a.text, a.row, a.col, a.dir⟩])
  else gi

/-- The placement loop of `_generate_word_search`, run over the sequence
of candidate positions the Python loops try (every commit in the source
is guarded by `_can_place_word`, so every execution trace of the loop is
a fold of `tryPlace` over some attempt list). -/
def placeWords (attempts : List Attempt) (gi : Board × PlacementIndex) :
    Board × PlacementIndex :=
  attempts.foldl tryPlace gi

/-- Python `_generate_word_search` after word sampling: sizing, empty
grid, the placement loop, then `_fill_empty_cells`; returns
`(grid, placed_words)`. -/
def generateWordSearch (ws : List GameWord) (attempts : List Attempt)
    (pick : Nat → Nat → Fin 26) : Board × PlacementIndex :=
  let gi := placeWords attempts (createEmptyGrid (determineInitialGridSize ws), [])
  (fillEmptyCells pick gi.1, gi.2)

/-- Reading the grid from a placed word's anchor along its direction for
its length. -/
def readBack (g : Board) (e : PlacedWord) : GameWord :=
  (List.range e.text.length).map
    (fun i => getCell g (posAt e.dir (e.row, e.col) i).1 (posAt e.dir (e.row, e.col) i).2)

/-- Invariant carried through the placement loop: every indexed word
reads back from the grid, and is made of uppercase letters. -/
def IndexOk (g : Board) (idx : PlacementIndex) : Prop :=
  ∀ e ∈ idx, readBack g e = e.text ∧ goodWord e.text

/-! ## Grid dimensions through the pipeline -/

/-- Square dimensions: `size` rows, each of length `size`. -/
def SquareOfSide (g : Board) (size : Nat) : Prop :=
  g.length = size ∧ ∀ row ∈ g, row.length = size

/-! ## Guess verification (`_extract_word`, `_matches_position`,
`_highlight_word`, `_check_word`) -/

/-- Python `_extract_word`: the characters along a horizontal or vertical
span, from min to max inclusive; the empty string on any other span. -/
def extractWord (g : Board) (sr sc er ec : Nat) : GameWord :=
  if sr = er then
    (List.range (max sc ec + 1 - min sc ec)).map (fun i => getCell g sr (min sc ec + i))
  else if sc = ec then
    (List.range (max sr er + 1 - min sr er)).map (fun i => getCell g (min sr er + i) sc)
  else []

/-- Python `_matches_position`; `word` is the string `_extract_word`
returned for the guessed span (not the placed word). -/
def matchesPosition (word : GameWord) (row col : Nat) (d : Direction)
    (sr sc er ec : Nat) : Bool :=
  match d with
  | .across =>
    decide (row = sr) && decide (col = min sc ec) &&
      decide (word.length = max ec sc - min ec sc + 1)
  | .down =>
    decide (col = sc) && decide (row = min sr er) &&
      decide (word.length = max er sr - min er sr + 1)

/-- Cells `_highlight_word` adds for a span (none for a diagonal span). -/
def spanCells (sr sc er ec : Nat) : Finset (Nat × Nat) :=
  if sr = er then
    (Finset.range (max sc ec + 1 - min sc ec)).image (fun i => (sr, min sc ec + i))
  else if sc = ec then
    (Finset.range (max sr er + 1 - min sr er)).image (fun i => (min sr er + i, sc))
  else ∅

/-- Mutable per-episode verifier state: `correct_words`,
`highlighted_positions`, `incorrect_attempts`. -/
structure Session where
  correctWords : Finset GameWord
  highlighted : Finset (Nat × Nat)
  incorrectAttempts : List (Nat × Nat × Nat × Nat)
deriving DecidableEq

/-- Python `_check_word`: extract the span's word, scan `placed_words` in
insertion order for a positional match; on a hit add the placed word to
`correct_words` and highlight the span, else log an incorrect attempt. -/
def checkWord (g : Board) (idx : PlacementIndex) (s : Session)
    (sr sc er ec : Nat) : Bool × Session :=
  let word := extractWord g sr sc er ec
  match idx.find? (fun e => matchesPosition word e.row e.col e.dir sr sc er ec) with
  | some e =>
    (true, { s with
      correctWords := insert e.text s.correctWords
      highlighted := s.highlighted ∪ spanCells sr sc er ec })
  | none =>
    (false, { s with incorrectAttempts := s.incorrectAttempts ++ [(sr, sc, er, ec)] })

/-! ## The turn loop (`step`, `_is_game_over`, `reset`) -/

/-- Episode status: `IN_PROGRESS`, `set_winners`, `set_draw`. -/
inductive Status
  | inProgress
  | won
  | drawn
deriving DecidableEq, Repr

/-- The environment state the claims talk about: the board, the
`placed_words` index, the session sets, the `num_incorrect_tries`
counter (a Python `int`), and the episode status. -/
structure EnvState where
  board : Board
  placed : PlacementIndex
  session : Session
  numIncorrectTries : Int
  status : Status
deriving DecidableEq

/-- Bounds check of `step`:
`0 <= r < len(board)` and `0 <= c < len(board[0])` for both endpoints. -/
def inBounds (g : Board) (sr sc er ec : Nat) : Bool :=
  decide (sr < gridHeight g) && decide (sc < gridWidth g) &&
    decide (er < gridHeight g) && decide (ec < gridWidth g)

/-- Python `_is_game_over`:
`len(self.correct_words) == len(self.placed_words)`. -/
def isGameOver (st : EnvState) : Bool :=
  decide (st.session.correctWords.card = st.placed.length)

/-- Processing of one parsed guess inside `step` (the body of the loop
over regex matches, for one match), followed by the `_is_game_over`
check that runs after the loop whenever the action parsed: out-of-bounds
and already-attempted guesses only flag an invalid move; otherwise
`_check_word` runs and an incorrect answer costs one try, drawing the
game at zero. -/
def stepGuessCore (st : EnvState) (sr sc er ec : Nat) : EnvState :=
  if ¬ (inBounds st.board sr sc er ec = true) then st
  else if (sr, sc, er, ec) ∈ st.session.incorrectAttempts then st
  else
    let r := checkWord st.board st.placed st.session sr sc er ec
    if r.1 then { st with session := r.2 }
    else
      { st with
        session := r.2
        numIncorrectTries := st.numIncorrectTries - 1
        status := if st.numIncorrectTries - 1 = 0 then .drawn else st.status }

/-- Processing of one parsed guess inside `step` (see `stepGuessCore`),
followed by the `_is_game_over` check that runs after the match loop. -/
def stepGuess (st : EnvState) (sr sc er ec : Nat) : EnvState :=
  let st1 := stepGuessCore st sr sc er ec
  if isGameOver st1 then { st1 with status := .won } else st1

/-- The session as `_generate_word_search` initialises it (lines setting
`highlighted_positions`, `correct_words`, `incorrect_attempts`). -/
def freshSession : Session := ⟨∅, ∅, []⟩

/-- The `num_incorrect_tries = 20` assignment of `__init__`. -/
def numIncorrectTriesInit : Int := 20

/-- Environment state right after `__init__` and a first `reset`. -/
def initEnv (g : Board) (idx : PlacementIndex) : EnvState :=
  ⟨g, idx, freshSession, numIncorrectTriesInit, .inProgress⟩

/-- Python `reset` on an existing instance: regenerates the board and the
index and re-initialises the three session containers, but does not touch
`num_incorrect_tries` (which only `__init__` line 33 sets). -/
def resetEnv (st : EnvState) (g : Board) (idx : PlacementIndex) : EnvState :=
  ⟨g, idx, freshSession, st.numIncorrectTries, .inProgress⟩

/-- A sequence of single-guess turns. -/
def runGuesses (st : EnvState) (gs : List (Nat × Nat × Nat × Nat)) : EnvState :=
  gs.foldl (fun s q => stepGuess s q.1 q.2.1 q.2.2.1 q.2.2.2) st

/-! ## A concrete generated puzzle used as test data -/

/-- The word CAT. -/
def catWord : GameWord := ['C', 'A', 'T']

/-- The single candidate the placement loop tries for CAT: across at
anchor (2, 1), the centred anchor `_generate_word_search` computes for a
first across word on a 4-grid (`row = 4 // 2 = 2`,
`col = (4 - 3) // 2 = 0`; we pick column 1, any legal candidate works). -/
def exAttempts : List Attempt := [⟨catWord, .across, 2, 1⟩]

/-- A fixed filler oracle: every empty cell becomes the letter X. -/
def pickA : Nat → Nat → Fin 26 := fun _ _ => ⟨23, by decide⟩

/-- The generated 4×4 board: CAT at row 2, columns 1-3, X elsewhere. -/
def exGrid : Board := (generateWordSearch [catWord] exAttempts pickA).1

/-- Its placement index: just CAT at (2, 1) across. -/
def exIndex : PlacementIndex := (generateWordSearch [catWord] exAttempts pickA).2

/-- Invariant tying the win status to the found-word count: the index is
fixed, `correct_words` only holds indexed words, a not-yet-won episode
has strictly fewer found words than placed words, and a won episode has
them all. -/
def WinInv (idx : PlacementIndex) (st : EnvState) : Prop :=
  st.placed = idx ∧
  st.session.correctWords ⊆ (idx.map PlacedWord.text).toFinset ∧
  (st.status ≠ .won → st.session.correctWords.card < idx.length) ∧
  (st.status = .won → st.session.correctWords.card = idx.length)

/-! ## Theorems -/

/-! ## Small list lemmas used throughout -/

/-- Reading past the end of a list gives the default. -/
theorem listGetD_of_le {α : Type} (l : List α) (d : α) (i : Nat) (h : l.length ≤ i) :
    l.getD i d = d := by
  induction l generalizing i with
  | nil => simp [List.getD]
  | cons a t ih =>
    cases i with
    | zero => simp at h
    | succ j =>
      simp only [List.getD] at *
      simpa using ih j (by simpa using h)

/-- Setting past the end of a list is a no-op. -/
theorem listSet_of_le {α : Type} (l : List α) (a : α) (i : Nat) (h : l.length ≤ i) :
    l.set i a = l := by
  induction l generalizing i with
  | nil => simp
  | cons b t ih =>
    cases i with
    | zero => simp at h
    | succ j => simpa using ih j (by simpa using h)

/-- Reading an index just set, when in range. -/
theorem listGetD_set_self {α : Type} (l : List α) (a d : α) (i : Nat) (h : i < l.length) :
    (l.set i a).getD i d = a := by
  induction l generalizing i with
  | nil => simp at h
  | cons b t ih =>
    cases i with
    | zero => simp [List.getD]
    | succ j =>
      simp only [List.set, List.getD] at *
      simpa using ih j (by simpa using h)

/-- Reading an index other than the one set. -/
theorem listGetD_set_ne {α : Type} (l : List α) (a d : α) (i j : Nat) (h : i ≠ j) :
    (l.set i a).getD j d = l.getD j d := by
  induction l generalizing i j with
  | nil => simp
  | cons b t ih =>
    cases i with
    | zero =>
      cases j with
      | zero => exact absurd rfl h
      | succ k => simp [List.getD]
    | succ i' =>
      cases j with
      | zero => simp [List.getD]
      | succ k =>
        simp only [List.set, List.getD]
        simpa using ih i' k (by omega)

/-- An in-range `getD` returns a member of the list. -/
theorem listGetD_mem_of_lt {α : Type} (l : List α) (d : α) (i : Nat) (h : i < l.length) :
    l.getD i d ∈ l := by
  induction l generalizing i with
  | nil => simp at h
  | cons b t ih =>
    cases i with
    | zero => simp [List.getD]
    | succ j =>
      simp only [List.getD]
      exact List.mem_cons_of_mem _ (by simpa using ih j (by simpa using h))

/-- A `getD` is a member of the list or the default. -/
theorem listGetD_mem_or_default {α : Type} (l : List α) (d : α) (i : Nat) :
    l.getD i d ∈ l ∨ l.getD i d = d := by
  by_cases h : i < l.length
  · exact Or.inl (listGetD_mem_of_lt l d i h)
  · exact Or.inr (listGetD_of_le l d i (by omega))

/-- Mapping the positions `0, …, n-1` with functions that agree below `n`. -/
theorem map_range_congr {α : Type} (n : Nat) (f g : Nat → α)
    (h : ∀ i, i < n → f i = g i) :
    (List.range n).map f = (List.range n).map g := by
  induction n with
  | zero => simp
  | succ m ih =>
    rw [List.range_succ, List.map_append, List.map_append,
      ih (fun i hi => h i (by omega))]
    simp [h m (by omega)]

/-- Reassembling a list from its `getD` reads. -/
theorem map_range_getD {α : Type} (l : List α) (d : α) :
    (List.range l.length).map (fun i => l.getD i d) = l := by
  induction l with
  | nil => simp
  | cons a t ih =>
    rw [List.length_cons, List.range_succ_eq_map, List.map_cons, List.map_map]
    have htail : (List.range t.length).map ((fun i => (a :: t).getD i d) ∘ Nat.succ)
        = (List.range t.length).map (fun i => t.getD i d) :=
      map_range_congr t.length _ _ (fun i _ => rfl)
    rw [htail, ih]
    simp [List.getD]

/-- Pointwise-equal predicates find the same first hit. -/
theorem find?_congr {α : Type} (l : List α) (p q : α → Bool)
    (h : ∀ a, p a = q a) : l.find? p = l.find? q := by
  induction l with
  | nil => simp
  | cons a t ih =>
    by_cases hp : p a
    · rw [List.find?_cons_of_pos _ hp, List.find?_cons_of_pos _ (by rw [← h]; exact hp)]
    · rw [List.find?_cons_of_neg _ hp,
        List.find?_cons_of_neg _ (by rw [← h]; simpa using hp), ih]

theorem getCell_ne_offGrid {g : Board} {r c : Nat} (h : getCell g r c ≠ offGrid) :
    r < g.length ∧ c < (g.getD r []).length := by
  constructor
  · by_contra hr
    apply h
    unfold getCell
    rw [listGetD_of_le g [] r (by omega)]
    simp [List.getD]
  · by_contra hc
    exact h (listGetD_of_le _ offGrid c (by omega))

theorem getCell_setCell_self {g : Board} {r c : Nat} (ch : Cell)
    (hr : r < g.length) (hc : c < (g.getD r []).length) :
    getCell (setCell g r c ch) r c = ch := by
  unfold getCell setCell
  rw [listGetD_set_self g _ [] r hr, listGetD_set_self _ ch offGrid c hc]

theorem getCell_setCell_ne {g : Board} {r c r' c' : Nat} (ch : Cell)
    (h : ¬ (r = r' ∧ c = c')) :
    getCell (setCell g r c ch) r' c' = getCell g r' c' := by
  unfold getCell setCell
  by_cases hr : r = r'
  · subst hr
    have hc : c ≠ c' := fun hcc => h ⟨rfl, hcc⟩
    by_cases hlt : r < g.length
    · rw [listGetD_set_self g _ [] r hlt, listGetD_set_ne _ ch offGrid c c' hc]
    · rw [listSet_of_le g _ r (by omega)]
  · rw [listGetD_set_ne g _ [] r r' hr]

theorem setCell_length (g : Board) (r c : Nat) (ch : Cell) :
    (setCell g r c ch).length = g.length := by
  simp [setCell]

theorem setCell_rowLength (g : Board) (r c : Nat) (ch : Cell) (i : Nat) :
    ((setCell g r c ch).getD i []).length = (g.getD i []).length := by
  unfold setCell
  by_cases hr : r = i
  · subst hr
    by_cases hlt : r < g.length
    · rw [listGetD_set_self g _ [] r hlt]
      simp
    · rw [listSet_of_le g _ r (by omega)]
  · rw [listGetD_set_ne g _ [] r i hr]

theorem posAt_zero (d : Direction) (p : Nat × Nat) : posAt d p 0 = p := by
  cases d <;> simp [posAt]

theorem posAt_succ (d : Direction) (p : Nat × Nat) (i : Nat) :
    posAt d p (i + 1) = posAt d (stepPos d p) i := by
  cases d <;> simp [posAt, stepPos] <;> omega

theorem posAt_coord_sum (d : Direction) (p : Nat × Nat) (i : Nat) :
    (posAt d p i).1 + (posAt d p i).2 = p.1 + p.2 + i := by
  cases d <;> simp [posAt] <;> omega

theorem posAt_stepPos_ne (d : Direction) (p : Nat × Nat) (i : Nat) :
    posAt d (stepPos d p) i ≠ p := by
  intro h
  have h1 := posAt_coord_sum d (stepPos d p) i
  rw [h] at h1
  cases d <;> simp [stepPos] at h1 <;> omega

theorem goodChar_ne_emptyMarker {ch : Char} (h : goodChar ch) : ch ≠ emptyMarker := by
  rintro rfl
  exact absurd h.1 (by decide)

theorem goodChar_ne_offGrid {ch : Char} (h : goodChar ch) : ch ≠ offGrid := by
  rintro rfl
  exact absurd h.1 (by decide)

theorem emptyMarker_ne_offGrid : emptyMarker ≠ offGrid := by decide

/-- Cells outside a placed span are untouched by `placeCells`. -/
theorem getCell_placeCells_out (g : Board) (d : Direction) (p : Nat × Nat)
    (w : GameWord) (r' c' : Nat)
    (hout : ∀ i, i < w.length → posAt d p i ≠ (r', c')) :
    getCell (placeCells g d p w) r' c' = getCell g r' c' := by
  induction w generalizing g p with
  | nil => rfl
  | cons ch rest ih =>
    show getCell (placeCells (setCell g p.1 p.2 ch) d (stepPos d p) rest) r' c' = _
    rw [ih (setCell g p.1 p.2 ch) (stepPos d p)
      (fun i hi => by rw [← posAt_succ]; exact hout (i + 1) (by simpa using hi))]
    apply getCell_setCell_ne
    intro hpc
    have h0 := hout 0 (by simp)
    rw [posAt_zero] at h0
    exact h0 (by cases p; simp at hpc ⊢; omega)

/-- Overwriting a cell does not change a conflict check that only looks
at other cells. -/
theorem cellsFree_setCell (g : Board) (d : Direction) (p0 : Nat × Nat) (ch0 : Cell)
    (q : Nat × Nat) (w : GameWord)
    (hne : ∀ i, i < w.length → posAt d q i ≠ p0) :
    cellsFree (setCell g p0.1 p0.2 ch0) d q w = cellsFree g d q w := by
  induction w generalizing q with
  | nil => rfl
  | cons ch rest ih =>
    show (_ && cellsFree (setCell g p0.1 p0.2 ch0) d (stepPos d q) rest) = _
    have hq : getCell (setCell g p0.1 p0.2 ch0) q.1 q.2 = getCell g q.1 q.2 := by
      apply getCell_setCell_ne
      intro hpc
      have h0 := hne 0 (by simp)
      rw [posAt_zero] at h0
      exact h0 (by cases q; cases p0; simp at hpc ⊢; omega)
    rw [hq, ih (stepPos d q)
      (fun i hi => by rw [← posAt_succ]; exact hne (i + 1) (by simpa using hi))]
    rfl

/-- A cell already holding a letter (neither empty nor off-grid) keeps it
across a placement that passed the conflict check. -/
theorem getCell_placeCells_preserve (g : Board) (d : Direction) (p : Nat × Nat)
    (w : GameWord) (r' c' : Nat) (ch' : Cell)
    (hfree : cellsFree g d p w = true)
    (hold : getCell g r' c' = ch')
    (hne1 : ch' ≠ emptyMarker) (hne2 : ch' ≠ offGrid) :
    getCell (placeCells g d p w) r' c' = ch' := by
  induction w generalizing g p with
  | nil => exact hold
  | cons ch rest ih =>
    have hfree' : (getCell g p.1 p.2 == emptyMarker || getCell g p.1 p.2 == ch)
        ∧ cellsFree g d (stepPos d p) rest := by
      simpa [cellsFree, Bool.and_eq_true] using hfree
    show getCell (placeCells (setCell g p.1 p.2 ch) d (stepPos d p) rest) r' c' = ch'
    have htrans : cellsFree (setCell g p.1 p.2 ch) d (stepPos d p) rest
        = cellsFree g d (stepPos d p) rest :=
      cellsFree_setCell g d p ch (stepPos d p) rest
        (fun i _ => posAt_stepPos_ne d p i)
    by_cases hp : p.1 = r' ∧ p.2 = c'
    · have hcell : getCell g p.1 p.2 = ch' := by rw [hp.1, hp.2]; exact hold
      have hchch' : ch = ch' := by
        rcases (by simpa using hfree'.1 : getCell g p.1 p.2 = emptyMarker
            ∨ getCell g p.1 p.2 = ch) with hc | hc
        · exact absurd (hcell ▸ hc : ch' = emptyMarker) hne1
        · rw [hcell] at hc
          exact hc.symm
      have hbounds := getCell_ne_offGrid (g := g) (r := p.1) (c := p.2)
        (by rw [hcell]; exact hne2)
      apply ih (setCell g p.1 p.2 ch) (stepPos d p)
      · rw [htrans]
        exact hfree'.2
      · rw [← hp.1, ← hp.2, getCell_setCell_self ch hbounds.1 hbounds.2, hchch']
    · apply ih (setCell g p.1 p.2 ch) (stepPos d p)
      · rw [htrans]
        exact hfree'.2
      · rw [getCell_setCell_ne ch hp]
        exact hold

/-- Placing a word that passed the conflict check makes each of its cells
hold the corresponding letter. -/
theorem getCell_placeCells_at (g : Board) (d : Direction) (p : Nat × Nat)
    (w : GameWord)
    (hfree : cellsFree g d p w = true) (hgood : goodWord w) :
    ∀ i, i < w.length →
      getCell (placeCells g d p w) (posAt d p i).1 (posAt d p i).2 = w.getD i offGrid := by
  induction w generalizing g p with
  | nil => intro i hi; simp at hi
  | cons ch rest ih =>
    have hfree' : (getCell g p.1 p.2 == emptyMarker || getCell g p.1 p.2 == ch)
        ∧ cellsFree g d (stepPos d p) rest := by
      simpa [cellsFree, Bool.and_eq_true] using hfree
    have htrans : cellsFree (setCell g p.1 p.2 ch) d (stepPos d p) rest
        = cellsFree g d (stepPos d p) rest :=
      cellsFree_setCell g d p ch (stepPos d p) rest
        (fun i _ => posAt_stepPos_ne d p i)
    intro i hi
    show getCell (placeCells (setCell g p.1 p.2 ch) d (stepPos d p) rest) _ _ = _
    cases i with
    | zero =>
      rw [posAt_zero]
      have hchgood : goodChar ch := hgood ch (by simp)
      have hcellne : getCell g p.1 p.2 ≠ offGrid := by
        rcases (by simpa using hfree'.1 : getCell g p.1 p.2 = emptyMarker
            ∨ getCell g p.1 p.2 = ch) with hc | hc
        · rw [hc]; exact emptyMarker_ne_offGrid
        · rw [hc]; exact goodChar_ne_offGrid hchgood
      have hbounds := getCell_ne_offGrid hcellne
      rw [getCell_placeCells_out _ d (stepPos d p) rest p.1 p.2
        (fun j _ => by
          have := posAt_stepPos_ne d p j
          intro hc
          exact this (by cases p; simpa using hc))]
      exact getCell_setCell_self ch hbounds.1 hbounds.2
    | succ j =>
      rw [posAt_succ]
      have := ih (setCell g p.1 p.2 ch) (stepPos d p)
        (by rw [htrans]; exact hfree'.2)
        (fun c hc => hgood c (List.mem_cons_of_mem _ hc))
        j (by simpa using hi)
      simpa [List.getD] using this

theorem fillRowFrom_length (pick : Nat → Nat → Fin 26) (r : Nat) (c : Nat)
    (row : List Cell) : (fillRowFrom pick r c row).length = row.length := by
  induction row generalizing c with
  | nil => rfl
  | cons cell rest ih =>
    show (fillRowFrom pick r (c + 1) rest).length + 1 = _
    rw [ih]
    rfl

theorem fillRowsFrom_length (pick : Nat → Nat → Fin 26) (r : Nat) (g : Board) :
    (fillRowsFrom pick r g).length = g.length := by
  induction g generalizing r with
  | nil => rfl
  | cons row rest ih =>
    show (fillRowsFrom pick (r + 1) rest).length + 1 = _
    rw [ih]
    rfl

theorem fillRowFrom_getD (pick : Nat → Nat → Fin 26) (r : Nat) (c0 : Nat)
    (row : List Cell) (c : Nat) (hc : c < row.length) :
    (fillRowFrom pick r c0 row).getD c offGrid =
      (if row.getD c offGrid = emptyMarker
       then asciiUppercase.getD (pick r (c0 + c)).1 'A' else row.getD c offGrid) := by
  induction row generalizing c0 c with
  | nil => simp at hc
  | cons cell rest ih =>
    cases c with
    | zero => simp [fillRowFrom, List.getD]
    | succ j =>
      show (fillRowFrom pick r (c0 + 1) rest).getD j offGrid = _
      rw [ih (c0 + 1) j (by simpa using hc)]
      have : c0 + 1 + j = c0 + (j + 1) := by omega
      rw [this]
      rfl

theorem fillRowsFrom_getD (pick : Nat → Nat → Fin 26) (r0 : Nat) (g : Board)
    (r : Nat) (hr : r < g.length) :
    (fillRowsFrom pick r0 g).getD r [] = fillRowFrom pick (r0 + r) 0 (g.getD r []) := by
  induction g generalizing r0 r with
  | nil => simp at hr
  | cons row rest ih =>
    cases r with
    | zero => simp [fillRowsFrom, List.getD]
    | succ j =>
      show (fillRowsFrom pick (r0 + 1) rest).getD j [] = _
      rw [ih (r0 + 1) j (by simpa using hr)]
      have : r0 + 1 + j = r0 + (j + 1) := by omega
      rw [this]
      rfl

/-- Pointwise description of `_fill_empty_cells`: "." cells get a chosen
letter, all other reads are unchanged. -/
theorem getCell_fillEmptyCells (pick : Nat → Nat → Fin 26) (g : Board) (r c : Nat) :
    getCell (fillEmptyCells pick g) r c =
      (if getCell g r c = emptyMarker
       then asciiUppercase.getD (pick r c).1 'A' else getCell g r c) := by
  by_cases hr : r < g.length
  · unfold fillEmptyCells getCell
    rw [fillRowsFrom_getD pick 0 g r hr, Nat.zero_add]
    by_cases hc : c < (g.getD r []).length
    · rw [fillRowFrom_getD pick r 0 (g.getD r []) c hc, Nat.zero_add]
    · rw [listGetD_of_le _ offGrid c (by rw [fillRowFrom_length]; omega),
        listGetD_of_le _ offGrid c (by omega)]
      simp [emptyMarker_ne_offGrid.symm]
  · have h1 : getCell (fillEmptyCells pick g) r c = offGrid := by
      unfold fillEmptyCells getCell
      rw [listGetD_of_le _ [] r (by rw [fillRowsFrom_length]; omega)]
      simp [List.getD]
    have h2 : getCell g r c = offGrid := by
      unfold getCell
      rw [listGetD_of_le _ [] r (by omega)]
      simp [List.getD]
    rw [h1, h2, if_neg emptyMarker_ne_offGrid.symm]

theorem asciiUppercase_good : ∀ ch ∈ asciiUppercase, goodChar ch := by decide

theorem asciiUppercase_getD_good (k : Nat) : goodChar (asciiUppercase.getD k 'A') := by
  rcases listGetD_mem_or_default asciiUppercase 'A' k with h | h
  · exact asciiUppercase_good _ h
  · rw [h]; decide

theorem canPlaceWord_cellsFree {g : Board} {w : GameWord} {d : Direction}
    {row col : Nat} (h : canPlaceWord g w d row col = true) :
    cellsFree g d (row, col) w = true := by
  cases d
  · exact (by simpa [canPlaceWord, Bool.and_eq_true] using h :
      col + w.length ≤ gridWidth g ∧ cellsFree g .across (row, col) w = true).2
  · exact (by simpa [canPlaceWord, Bool.and_eq_true] using h :
      row + w.length ≤ gridHeight g ∧ cellsFree g .down (row, col) w = true).2

theorem readBack_preserved_of_placeCells {g : Board} {e : PlacedWord}
    (d : Direction) (p : Nat × Nat) (w : GameWord)
    (hfree : cellsFree g d p w = true)
    (hok : readBack g e = e.text) (hgood : goodWord e.text) :
    readBack (placeCells g d p w) e = e.text := by
  have hval : ∀ i, i < e.text.length →
      getCell g (posAt e.dir (e.row, e.col) i).1 (posAt e.dir (e.row, e.col) i).2
        = e.text.getD i offGrid := by
    intro i hi
    have h1 := congrArg (fun l => l.getD i offGrid) hok
    simp only [readBack] at h1
    rw [← h1, List.getD_eq_getElem?_getD, List.getElem?_map, List.getElem?_range hi]
    rfl
  have hsame : readBack (placeCells g d p w) e = readBack g e := by
    unfold readBack
    apply map_range_congr
    intro i hi
    have hgc : goodChar (e.text.getD i offGrid) :=
      hgood _ (listGetD_mem_of_lt _ _ i hi)
    rw [getCell_placeCells_preserve g d p w _ _ _ hfree (hval i hi)
      (goodChar_ne_emptyMarker hgc) (goodChar_ne_offGrid hgc), ← hval i hi]
  rw [hsame, hok]

/-- Reading back a word straight after its own guarded placement. -/
theorem readBack_of_placed {g : Board} {w : GameWord} {d : Direction} {row col : Nat}
    (hcan : canPlaceWord g w d row col = true) (hgood : goodWord w) :
    readBack (placeWordOnGrid g w d row col) ⟨w, row, col, d⟩ = w := by
  have hfree := canPlaceWord_cellsFree hcan
  unfold readBack placeWordOnGrid
  have hpt : ∀ i, i < w.length →
      getCell (placeCells g d (row, col) w)
        (posAt d (row, col) i).1 (posAt d (row, col) i).2 = w.getD i offGrid :=
    getCell_placeCells_at g d (row, col) w hfree hgood
  calc (List.range w.length).map
        (fun i => getCell (placeCells g d (row, col) w)
          (posAt d (row, col) i).1 (posAt d (row, col) i).2)
      = (List.range w.length).map (fun i => w.getD i offGrid) :=
        map_range_congr _ _ _ hpt
    _ = w := map_range_getD w offGrid

/-- One guarded attempt preserves the index invariant. -/
theorem tryPlace_indexOk {gi : Board × PlacementIndex} {a : Attempt}
    (hgood : goodWord a.text) (hok : IndexOk gi.1 gi.2) :
    IndexOk (tryPlace gi a).1 (tryPlace gi a).2 := by
  unfold tryPlace
  by_cases hcan : canPlaceWord gi.1 a.text a.dir a.row a.col
  · rw [if_pos hcan]
    intro e he
    rcases List.mem_append.mp he with hold | hnew
    · have h1 := hok e hold
      exact ⟨readBack_preserved_of_placeCells a.dir (a.row, a.col) a.text
        (canPlaceWord_cellsFree hcan) h1.1 h1.2, h1.2⟩
    · have he' : e = ⟨a.text, a.row, a.col, a.dir⟩ := by simpa using hnew
      subst he'
      exact ⟨readBack_of_placed hcan hgood, hgood⟩
  · rw [if_neg hcan]
    exact hok

/-- The whole placement loop preserves the index invariant. -/
theorem placeWords_indexOk (attempts : List Attempt) (gi : Board × PlacementIndex)
    (hgood : ∀ a ∈ attempts, goodWord a.text) (hok : IndexOk gi.1 gi.2) :
    IndexOk (placeWords attempts gi).1 (placeWords attempts gi).2 := by
  induction attempts generalizing gi with
  | nil => exact hok
  | cons a rest ih =>
    exact ih (tryPlace gi a) (fun x hx => hgood x (List.mem_cons_of_mem _ hx))
      (tryPlace_indexOk (hgood a (by simp)) hok)

/-- Filling preserves the index invariant (placed letters are never "."). -/
theorem fill_indexOk (pick : Nat → Nat → Fin 26) {g : Board} {idx : PlacementIndex}
    (hok : IndexOk g idx) : IndexOk (fillEmptyCells pick g) idx := by
  intro e he
  have h1 := hok e he
  refine ⟨?_, h1.2⟩
  have hval : ∀ i, i < e.text.length →
      getCell g (posAt e.dir (e.row, e.col) i).1 (posAt e.dir (e.row, e.col) i).2
        = e.text.getD i offGrid := by
    intro i hi
    have hx := congrArg (fun l => l.getD i offGrid) h1.1
    simp only [readBack] at hx
    rw [← hx, List.getD_eq_getElem?_getD, List.getElem?_map, List.getElem?_range hi]
    rfl
  have hsame : readBack (fillEmptyCells pick g) e = readBack g e := by
    unfold readBack
    apply map_range_congr
    intro i hi
    have hgc : goodChar (e.text.getD i offGrid) :=
      h1.2 _ (listGetD_mem_of_lt _ _ i hi)
    rw [getCell_fillEmptyCells,
      if_neg (by rw [hval i hi]; exact goodChar_ne_emptyMarker hgc)]
  rw [hsame, h1.1]

theorem createEmptyGrid_square (size : Nat) : SquareOfSide (createEmptyGrid size) size := by
  constructor
  · simp [createEmptyGrid]
  · intro row hrow
    rw [List.eq_of_mem_replicate hrow]
    simp

theorem setCell_square {g : Board} {size : Nat} (h : SquareOfSide g size)
    (r c : Nat) (ch : Cell) : SquareOfSide (setCell g r c ch) size := by
  constructor
  · rw [setCell_length]
    exact h.1
  · intro row hrow
    unfold setCell at hrow
    by_cases hr : r < g.length
    · rcases List.mem_or_eq_of_mem_set hrow with hmem | heq
      · exact h.2 row hmem
      · subst heq
        rw [List.length_set]
        exact h.2 _ (listGetD_mem_of_lt g [] r hr)
    · rw [listSet_of_le g _ r (by omega)] at hrow
      exact h.2 row hrow

theorem placeCells_square {g : Board} {size : Nat} (h : SquareOfSide g size)
    (d : Direction) (p : Nat × Nat) (w : GameWord) :
    SquareOfSide (placeCells g d p w) size := by
  induction w generalizing g p with
  | nil => exact h
  | cons ch rest ih => exact ih (setCell_square h p.1 p.2 ch) (stepPos d p)

theorem tryPlace_square {gi : Board × PlacementIndex} {size : Nat}
    (h : SquareOfSide gi.1 size) (a : Attempt) : SquareOfSide (tryPlace gi a).1 size := by
  unfold tryPlace
  by_cases hcan : canPlaceWord gi.1 a.text a.dir a.row a.col
  · rw [if_pos hcan]
    exact placeCells_square h a.dir (a.row, a.col) a.text
  · rw [if_neg hcan]
    exact h

theorem placeWords_square (attempts : List Attempt) {gi : Board × PlacementIndex}
    {size : Nat} (h : SquareOfSide gi.1 size) :
    SquareOfSide (placeWords attempts gi).1 size := by
  induction attempts generalizing gi with
  | nil => exact h
  | cons a rest ih => exact ih (tryPlace_square h a)

theorem fillRowsFrom_mem (pick : Nat → Nat → Fin 26) (r0 : Nat) (g : Board) :
    ∀ row ∈ fillRowsFrom pick r0 g,
      ∃ r1 row0, row0 ∈ g ∧ row = fillRowFrom pick r1 0 row0 := by
  induction g generalizing r0 with
  | nil =>
    intro row hrow
    simp [fillRowsFrom] at hrow
  | cons hd rest ih =>
    intro row hrow
    have hrow' : row ∈ fillRowFrom pick r0 0 hd :: fillRowsFrom pick (r0 + 1) rest := hrow
    rcases List.mem_cons.mp hrow' with heq | hmem
    · exact ⟨r0, hd, by simp, heq⟩
    · rcases ih (r0 + 1) row hmem with ⟨r1, row0, hm, he⟩
      exact ⟨r1, row0, List.mem_cons_of_mem _ hm, he⟩

theorem fillEmptyCells_square (pick : Nat → Nat → Fin 26) {g : Board} {size : Nat}
    (h : SquareOfSide g size) : SquareOfSide (fillEmptyCells pick g) size := by
  constructor
  · unfold fillEmptyCells
    rw [fillRowsFrom_length]
    exact h.1
  · intro row hrow
    rcases fillRowsFrom_mem pick 0 g row hrow with ⟨r1, row0, hm, he⟩
    rw [he, fillRowFrom_length]
    exact h.2 row0 hm

/-! ## Branch lemmas for one turn -/

theorem stepGuessCore_oob {st : EnvState} {sr sc er ec : Nat}
    (h : ¬ inBounds st.board sr sc er ec = true) :
    stepGuessCore st sr sc er ec = st := by
  unfold stepGuessCore
  rw [if_pos h]

theorem stepGuessCore_dup {st : EnvState} {sr sc er ec : Nat}
    (hin : inBounds st.board sr sc er ec = true)
    (h : (sr, sc, er, ec) ∈ st.session.incorrectAttempts) :
    stepGuessCore st sr sc er ec = st := by
  unfold stepGuessCore
  rw [if_neg (by simp [hin]), if_pos h]

theorem stepGuessCore_correct {st : EnvState} {sr sc er ec : Nat}
    (hin : inBounds st.board sr sc er ec = true)
    (hnd : (sr, sc, er, ec) ∉ st.session.incorrectAttempts)
    (h : (checkWord st.board st.placed st.session sr sc er ec).1 = true) :
    stepGuessCore st sr sc er ec =
      { st with session := (checkWord st.board st.placed st.session sr sc er ec).2 } := by
  unfold stepGuessCore
  rw [if_neg (by simp [hin]), if_neg hnd]
  simp only [h]
  rfl

theorem stepGuessCore_incorrect {st : EnvState} {sr sc er ec : Nat}
    (hin : inBounds st.board sr sc er ec = true)
    (hnd : (sr, sc, er, ec) ∉ st.session.incorrectAttempts)
    (h : (checkWord st.board st.placed st.session sr sc er ec).1 = false) :
    stepGuessCore st sr sc er ec =
      { st with
        session := (checkWord st.board st.placed st.session sr sc er ec).2
        numIncorrectTries := st.numIncorrectTries - 1
        status := if st.numIncorrectTries - 1 = 0 then .drawn else st.status } := by
  unfold stepGuessCore
  rw [if_neg (by simp [hin]), if_neg hnd]
  simp only [h]
  rfl

theorem stepGuess_eq_core_of_not_over {st : EnvState} {sr sc er ec : Nat}
    (h : isGameOver (stepGuessCore st sr sc er ec) = false) :
    stepGuess st sr sc er ec = stepGuessCore st sr sc er ec := by
  unfold stepGuess
  simp [h]

theorem stepGuess_eq_won_of_over {st : EnvState} {sr sc er ec : Nat}
    (h : isGameOver (stepGuessCore st sr sc er ec) = true) :
    stepGuess st sr sc er ec =
      { stepGuessCore st sr sc er ec with status := .won } := by
  unfold stepGuess
  simp [h]

theorem stepGuess_session (st : EnvState) (sr sc er ec : Nat) :
    (stepGuess st sr sc er ec).session = (stepGuessCore st sr sc er ec).session := by
  unfold stepGuess
  by_cases h : isGameOver (stepGuessCore st sr sc er ec) = true
  · rw [if_pos h]
  · rw [if_neg h]

theorem stepGuess_tries (st : EnvState) (sr sc er ec : Nat) :
    (stepGuess st sr sc er ec).numIncorrectTries
      = (stepGuessCore st sr sc er ec).numIncorrectTries := by
  unfold stepGuess
  by_cases h : isGameOver (stepGuessCore st sr sc er ec) = true
  · rw [if_pos h]
  · rw [if_neg h]

theorem stepGuess_board (st : EnvState) (sr sc er ec : Nat) :
    (stepGuess st sr sc er ec).board = (stepGuessCore st sr sc er ec).board := by
  unfold stepGuess
  by_cases h : isGameOver (stepGuessCore st sr sc er ec) = true
  · rw [if_pos h]
  · rw [if_neg h]

theorem stepGuess_placed (st : EnvState) (sr sc er ec : Nat) :
    (stepGuess st sr sc er ec).placed = (stepGuessCore st sr sc er ec).placed := by
  unfold stepGuess
  by_cases h : isGameOver (stepGuessCore st sr sc er ec) = true
  · rw [if_pos h]
  · rw [if_neg h]

/-- `_check_word` when the scan over `placed_words` finds no match. -/
theorem checkWord_eq_of_find?_none {g : Board} {idx : PlacementIndex} {s : Session}
    {sr sc er ec : Nat}
    (hfind : idx.find?
      (fun e => matchesPosition (extractWord g sr sc er ec) e.row e.col e.dir sr sc er ec)
      = none) :
    checkWord g idx s sr sc er ec =
      (false, { s with
        incorrectAttempts := s.incorrectAttempts ++ [(sr, sc, er, ec)] }) := by
  unfold checkWord
  simp [hfind]

/-- `_check_word` when the scan over `placed_words` finds its first
match `e`. -/
theorem checkWord_eq_of_find?_some {g : Board} {idx : PlacementIndex} {s : Session}
    {sr sc er ec : Nat} {e : PlacedWord}
    (hfind : idx.find?
      (fun x => matchesPosition (extractWord g sr sc er ec) x.row x.col x.dir sr sc er ec)
      = some e) :
    checkWord g idx s sr sc er ec =
      (true, { s with
        correctWords := insert e.text s.correctWords
        highlighted := s.highlighted ∪ spanCells sr sc er ec }) := by
  unfold checkWord
  simp [hfind]

theorem checkWord_correctWords_mono (g : Board) (idx : PlacementIndex) (s : Session)
    (sr sc er ec : Nat) :
    s.correctWords ⊆ (checkWord g idx s sr sc er ec).2.correctWords := by
  cases hfind : idx.find?
    (fun e => matchesPosition (extractWord g sr sc er ec) e.row e.col e.dir sr sc er ec) with
  | none => rw [checkWord_eq_of_find?_none hfind]
  | some e =>
    rw [checkWord_eq_of_find?_some hfind]
    exact Finset.subset_insert _ _

theorem bool_ne_true_iff {b : Bool} (h : ¬ b = true) : b = false := by
  simpa using h

theorem stepGuessCore_placed (st : EnvState) (sr sc er ec : Nat) :
    (stepGuessCore st sr sc er ec).placed = st.placed := by
  by_cases hin : inBounds st.board sr sc er ec = true
  · by_cases hdup : (sr, sc, er, ec) ∈ st.session.incorrectAttempts
    · rw [stepGuessCore_dup hin hdup]
    · by_cases hcw : (checkWord st.board st.placed st.session sr sc er ec).1 = true
      · rw [stepGuessCore_correct hin hdup hcw]
      · rw [stepGuessCore_incorrect hin hdup (bool_ne_true_iff hcw)]
  · rw [stepGuessCore_oob hin]

theorem stepGuessCore_board_eq (st : EnvState) (sr sc er ec : Nat) :
    (stepGuessCore st sr sc er ec).board = st.board := by
  by_cases hin : inBounds st.board sr sc er ec = true
  · by_cases hdup : (sr, sc, er, ec) ∈ st.session.incorrectAttempts
    · rw [stepGuessCore_dup hin hdup]
    · by_cases hcw : (checkWord st.board st.placed st.session sr sc er ec).1 = true
      · rw [stepGuessCore_correct hin hdup hcw]
      · rw [stepGuessCore_incorrect hin hdup (bool_ne_true_iff hcw)]
  · rw [stepGuessCore_oob hin]

/-- A successful `_check_word` comes from the first positional match in
the index: the matched entry is a member of `placed_words`, the word is
recorded and the span highlighted. -/
theorem checkWord_true_exists_find {g : Board} {idx : PlacementIndex} {s : Session}
    {sr sc er ec : Nat} (h : (checkWord g idx s sr sc er ec).1 = true) :
    ∃ e, idx.find?
        (fun x => matchesPosition (extractWord g sr sc er ec) x.row x.col x.dir sr sc er ec)
        = some e ∧
      (checkWord g idx s sr sc er ec).2 = { s with
        correctWords := insert e.text s.correctWords
        highlighted := s.highlighted ∪ spanCells sr sc er ec } ∧
      e ∈ idx := by
  cases hfind : idx.find?
      (fun x => matchesPosition (extractWord g sr sc er ec) x.row x.col x.dir sr sc er ec) with
  | none =>
    rw [checkWord_eq_of_find?_none hfind] at h
    simp at h
  | some e =>
    refine ⟨e, rfl, ?_, List.mem_of_find?_eq_some hfind⟩
    rw [checkWord_eq_of_find?_some hfind]

/-- A failed `_check_word` only appends the span to the attempts log. -/
theorem checkWord_false_session {g : Board} {idx : PlacementIndex} {s : Session}
    {sr sc er ec : Nat} (h : (checkWord g idx s sr sc er ec).1 = false) :
    (checkWord g idx s sr sc er ec).2 = { s with
      incorrectAttempts := s.incorrectAttempts ++ [(sr, sc, er, ec)] } := by
  cases hfind : idx.find?
      (fun x => matchesPosition (extractWord g sr sc er ec) x.row x.col x.dir sr sc er ec) with
  | none => rw [checkWord_eq_of_find?_none hfind]
  | some e =>
    rw [checkWord_eq_of_find?_some hfind] at h
    simp at h

/-- A diagonal span extracts the empty string. -/
theorem extractWord_diagonal (g : Board) {sr sc er ec : Nat}
    (h1 : sr ≠ er) (h2 : sc ≠ ec) : extractWord g sr sc er ec = [] := by
  unfold extractWord
  rw [if_neg h1, if_neg h2]

/-- The empty extracted string matches no placed word: the span length
compared against is at least 1. -/
theorem matchesPosition_nil_false (row col : Nat) (d : Direction)
    (sr sc er ec : Nat) : matchesPosition [] row col d sr sc er ec = false := by
  cases d <;> simp [matchesPosition]

/-- `_check_word` on a diagonal span: no match, the span is logged as an
incorrect attempt. -/
theorem checkWord_diagonal (g : Board) (idx : PlacementIndex) (s : Session)
    {sr sc er ec : Nat} (h1 : sr ≠ er) (h2 : sc ≠ ec) :
    checkWord g idx s sr sc er ec =
      (false, { s with
        incorrectAttempts := s.incorrectAttempts ++ [(sr, sc, er, ec)] }) := by
  apply checkWord_eq_of_find?_none
  apply List.find?_eq_none.mpr
  intro e _
  rw [extractWord_diagonal g h1 h2, matchesPosition_nil_false]
  simp

/-! ## Claim theorems -/

/-- C1. The claim says `_check_word`/`_matches_position` accept a guess
span if and only if its fixed coordinate, smaller varying coordinate AND
its length equal the placed word's anchor and length.  The code compares
the length of the EXTRACTED guess string (always the span's own length)
instead of the placed word's length, so the length condition is vacuous:
on the board with CAT placed across at (2, 1) (cells (2,1)-(2,3)), the
single-cell guess [2 1 2 1] — a span of length 1 against a word of
length 3 — is accepted and CAT is marked found. -/
theorem c1_match_ignores_placed_word_length :
    (checkWord exGrid exIndex freshSession 2 1 2 1).1 = true ∧
    catWord ∈ (checkWord exGrid exIndex freshSession 2 1 2 1).2.correctWords ∧
    (extractWord exGrid 2 1 2 1).length = 1 ∧
    catWord.length = 3 ∧
    (2, 3) ∈ spanCells 2 1 2 3 ∧
    (2, 3) ∉ spanCells 2 1 2 1 := by decide

/-- C3 counterexample. For the one-word list [CAT] the code generates a
4×4 grid (`round(4.5)` in Python is banker's rounding, giving 4), while
the claim's pinned round-half-up rule demands side 5. -/
theorem c3_round_half_up_counterexample :
    (generateWordSearch [catWord] exAttempts pickA).1.length = 4 ∧
    maxWordLength [catWord] = 3 ∧
    roundHalfUpGridSize 3 = 5 ∧
    (4 : Nat) ≠ 5 := by decide

/-- C3 amended. For every non-empty word list the generated grid is
square with side `round(1.5 × max word length)` where `round` is
Python's round-half-to-even (so 1.5 × 3 = 4.5 rounds to 4, not 5). -/
theorem c3_grid_square_with_banker_rounded_side (ws : List GameWord)
    (hne : ws ≠ []) (attempts : List Attempt) (pick : Nat → Nat → Fin 26) :
    SquareOfSide (generateWordSearch ws attempts pick).1
      (determineInitialGridSize ws) := by
  have h0 := createEmptyGrid_square (determineInitialGridSize ws)
  have h1 : SquareOfSide (placeWords attempts
      (createEmptyGrid (determineInitialGridSize ws), [])).1
      (determineInitialGridSize ws) := placeWords_square attempts h0
  exact fillEmptyCells_square pick h1

/-- C3 witness: the amended sizing theorem at the concrete list [CAT]. -/
theorem c3_grid_square_witness :
    ([catWord] : List GameWord) ≠ [] ∧
    SquareOfSide (generateWordSearch [catWord] exAttempts pickA).1
      (determineInitialGridSize [catWord]) :=
  ⟨by decide, c3_grid_square_with_banker_rounded_side [catWord] (by decide)
    exAttempts pickA⟩

/-- C7. The claim says every reset restores `remaining_tries` to the
budget constant.  `reset` regenerates the board and empties
`correct_words`, `highlighted_positions` and `incorrect_attempts`, but
`num_incorrect_tries` is assigned only in `__init__`: after one incorrect
guess (the wrong span [0 0 0 1]) it stands at 19, and a following reset
keeps it at 19 instead of restoring the budget of 20. -/
theorem c7_reset_keeps_spent_tries :
    (resetEnv (stepGuess (initEnv exGrid exIndex) 0 0 0 1) exGrid exIndex).numIncorrectTries
      = 19 ∧
    (resetEnv (stepGuess (initEnv exGrid exIndex) 0 0 0 1) exGrid exIndex).session.correctWords
      = ∅ ∧
    (resetEnv (stepGuess (initEnv exGrid exIndex) 0 0 0 1) exGrid exIndex).session.highlighted
      = ∅ ∧
    (resetEnv (stepGuess (initEnv exGrid exIndex) 0 0 0 1) exGrid exIndex).session.incorrectAttempts
      = [] ∧
    numIncorrectTriesInit = 20 ∧
    (19 : Int) ≠ 20 := by decide

/-- C2. Placement consistency: after generation (the guarded placement
loop over any sequence of candidate positions, followed by filling), every
word in the placement index reads back from the grid: following its
recorded direction from its anchor for its length yields exactly its
text.  Holds whenever the attempted words are uppercase-letter words, as
all sampled dictionary words are after `word.upper()`. -/
theorem c2_placement_consistency (ws : List GameWord) (attempts : List Attempt)
    (pick : Nat → Nat → Fin 26) (hgood : ∀ a ∈ attempts, goodWord a.text) :
    ∀ e ∈ (generateWordSearch ws attempts pick).2,
      readBack (generateWordSearch ws attempts pick).1 e = e.text := by
  have hstart : IndexOk (createEmptyGrid (determineInitialGridSize ws)) [] := by
    intro e he
    simp at he
  have hplaced := placeWords_indexOk attempts
    (createEmptyGrid (determineInitialGridSize ws), []) hgood hstart
  have hfilled := fill_indexOk pick hplaced
  intro e he
  exact (hfilled e he).1

/-- C2 witness: placement consistency on the concrete CAT puzzle. -/
theorem c2_placement_consistency_witness :
    (∀ a ∈ exAttempts, goodWord a.text) ∧
    (∀ e ∈ (generateWordSearch [catWord] exAttempts pickA).2,
      readBack (generateWordSearch [catWord] exAttempts pickA).1 e = e.text) :=
  ⟨by decide, c2_placement_consistency [catWord] exAttempts pickA (by decide)⟩

/-- C8. Frame property of `_fill_empty_cells`: it leaves every cell that
does not hold the empty marker unchanged, turns every empty-marker cell
into a letter of the 26-letter uppercase alphabet, and afterwards no cell
reads as the empty marker. -/
theorem c8_fill_frame (pick : Nat → Nat → Fin 26) (g : Board) :
    (∀ r c, getCell g r c ≠ emptyMarker →
      getCell (fillEmptyCells pick g) r c = getCell g r c) ∧
    (∀ r c, getCell g r c = emptyMarker →
      getCell (fillEmptyCells pick g) r c ∈ asciiUppercase) ∧
    (∀ r c, getCell (fillEmptyCells pick g) r c ≠ emptyMarker) := by
  refine ⟨?_, ?_, ?_⟩
  · intro r c h
    rw [getCell_fillEmptyCells, if_neg h]
  · intro r c h
    rw [getCell_fillEmptyCells, if_pos h]
    exact listGetD_mem_of_lt asciiUppercase 'A' (pick r c).1
      (by simp [asciiUppercase])
  · intro r c
    rw [getCell_fillEmptyCells]
    by_cases h : getCell g r c = emptyMarker
    · rw [if_pos h]
      exact goodChar_ne_emptyMarker (asciiUppercase_getD_good (pick r c).1)
    · rw [if_neg h]
      exact h

/-- C8 witness: the fill frame property on a small concrete board with
one empty and one occupied cell. -/
theorem c8_fill_frame_witness :
    getCell [['.', 'A'], ['B', '.']] 0 1 ≠ emptyMarker ∧
    getCell (fillEmptyCells pickA [['.', 'A'], ['B', '.']]) 0 1
      = getCell [['.', 'A'], ['B', '.']] 0 1 ∧
    getCell [['.', 'A'], ['B', '.']] 0 0 = emptyMarker ∧
    getCell (fillEmptyCells pickA [['.', 'A'], ['B', '.']]) 0 0 ∈ asciiUppercase :=
  ⟨by decide,
    (c8_fill_frame pickA [['.', 'A'], ['B', '.']]).1 0 1 (by decide),
    by decide,
    (c8_fill_frame pickA [['.', 'A'], ['B', '.']]).2.1 0 0 (by decide)⟩

/-- C4 counterexample. The in-bounds diagonal guess [0 0 1 1] on the CAT
board: verification returns false, but — against the claim — the span IS
appended to `incorrect_attempts` and the remaining-tries counter IS
decremented from 20 to 19. -/
theorem c4_diagonal_mutates_counterexample :
    (checkWord exGrid exIndex freshSession 0 0 1 1).1 = false ∧
    (checkWord exGrid exIndex freshSession 0 0 1 1).2.incorrectAttempts = [(0, 0, 1, 1)] ∧
    (stepGuess (initEnv exGrid exIndex) 0 0 1 1).numIncorrectTries = 19 ∧
    (stepGuess (initEnv exGrid exIndex) 0 0 1 1).session.incorrectAttempts
      = [(0, 0, 1, 1)] ∧
    ¬ ((stepGuess (initEnv exGrid exIndex) 0 0 1 1).numIncorrectTries
        = numIncorrectTriesInit ∧
      (stepGuess (initEnv exGrid exIndex) 0 0 1 1).session.incorrectAttempts
        = []) := by decide

/-- C4 amended. An in-bounds guess whose span is neither purely
horizontal nor purely vertical, and which was not attempted before,
returns false and leaves `correct_words` and `highlighted_cells`
unchanged — but it is appended to `incorrect_attempts` and it does
consume the incorrect-attempt budget: the remaining-tries counter
decreases by 1 (the code routes the empty extracted word through the
ordinary no-match path instead of rejecting the move). -/
theorem c4_diagonal_consumes_budget (st : EnvState) (sr sc er ec : Nat)
    (hin : inBounds st.board sr sc er ec = true)
    (hdr : sr ≠ er) (hdc : sc ≠ ec)
    (hnd : (sr, sc, er, ec) ∉ st.session.incorrectAttempts) :
    (checkWord st.board st.placed st.session sr sc er ec).1 = false ∧
    (stepGuess st sr sc er ec).session.correctWords = st.session.correctWords ∧
    (stepGuess st sr sc er ec).session.highlighted = st.session.highlighted ∧
    (stepGuess st sr sc er ec).session.incorrectAttempts
      = st.session.incorrectAttempts ++ [(sr, sc, er, ec)] ∧
    (stepGuess st sr sc er ec).numIncorrectTries = st.numIncorrectTries - 1 := by
  have hcw := checkWord_diagonal st.board st.placed st.session hdr hdc
  have hcore := stepGuessCore_incorrect hin hnd (by rw [hcw])
  refine ⟨by rw [hcw], ?_, ?_, ?_, ?_⟩
  · rw [stepGuess_session, hcore, hcw]
  · rw [stepGuess_session, hcore, hcw]
  · rw [stepGuess_session, hcore, hcw]
  · rw [stepGuess_tries, hcore]

/-- C4 witness: the amended behaviour at the concrete diagonal guess
[0 0 1 1] on the CAT board. -/
theorem c4_diagonal_consumes_budget_witness :
    inBounds (initEnv exGrid exIndex).board 0 0 1 1 = true ∧
    ((checkWord (initEnv exGrid exIndex).board (initEnv exGrid exIndex).placed
        (initEnv exGrid exIndex).session 0 0 1 1).1 = false ∧
      (stepGuess (initEnv exGrid exIndex) 0 0 1 1).session.correctWords
        = (initEnv exGrid exIndex).session.correctWords ∧
      (stepGuess (initEnv exGrid exIndex) 0 0 1 1).session.highlighted
        = (initEnv exGrid exIndex).session.highlighted ∧
      (stepGuess (initEnv exGrid exIndex) 0 0 1 1).session.incorrectAttempts
        = (initEnv exGrid exIndex).session.incorrectAttempts ++ [(0, 0, 1, 1)] ∧
      (stepGuess (initEnv exGrid exIndex) 0 0 1 1).numIncorrectTries
        = (initEnv exGrid exIndex).numIncorrectTries - 1) :=
  ⟨by decide, c4_diagonal_consumes_budget (initEnv exGrid exIndex) 0 0 1 1
    (by decide) (by decide) (by decide) (by decide)⟩

/-- C5. Budget monotonicity and the draw transition, for one processed
guess while the episode is in progress with words still unfound: an
out-of-bounds guess and a repeated guess leave the state unchanged (the
budget is not consumed); an in-bounds, not-yet-attempted guess that the
verifier rejects decrements the remaining-tries counter by exactly 1,
and the episode status becomes DRAWN exactly when the counter reaches 0,
regardless of how many words remain unfound. -/
theorem c5_budget_monotonic_draw (st : EnvState) (sr sc er ec : Nat)
    (hprog : st.status = .inProgress)
    (hunfound : st.session.correctWords.card ≠ st.placed.length) :
    (inBounds st.board sr sc er ec = false → stepGuess st sr sc er ec = st) ∧
    ((sr, sc, er, ec) ∈ st.session.incorrectAttempts →
      stepGuess st sr sc er ec = st) ∧
    (inBounds st.board sr sc er ec = true →
      (sr, sc, er, ec) ∉ st.session.incorrectAttempts →
      (checkWord st.board st.placed st.session sr sc er ec).1 = false →
      (stepGuess st sr sc er ec).numIncorrectTries = st.numIncorrectTries - 1 ∧
      ((stepGuess st sr sc er ec).status = .drawn ↔
        st.numIncorrectTries - 1 = 0)) := by
  have hnotover : isGameOver st = false := by
    simp [isGameOver, hunfound]
  refine ⟨?_, ?_, ?_⟩
  · intro hoob
    have hcore : stepGuessCore st sr sc er ec = st :=
      stepGuessCore_oob (by simp [hoob])
    rw [stepGuess_eq_core_of_not_over (by rw [hcore]; exact hnotover), hcore]
  · intro hdup
    by_cases hin : inBounds st.board sr sc er ec = true
    · have hcore : stepGuessCore st sr sc er ec = st := stepGuessCore_dup hin hdup
      rw [stepGuess_eq_core_of_not_over (by rw [hcore]; exact hnotover), hcore]
    · have hcore : stepGuessCore st sr sc er ec = st := stepGuessCore_oob hin
      rw [stepGuess_eq_core_of_not_over (by rw [hcore]; exact hnotover), hcore]
  · intro hin hnd hfalse
    have hcore := stepGuessCore_incorrect hin hnd hfalse
    have hsesscw : (checkWord st.board st.placed st.session sr sc er ec).2.correctWords
        = st.session.correctWords := by
      cases hfind : st.placed.find? (fun e =>
          matchesPosition (extractWord st.board sr sc er ec) e.row e.col e.dir sr sc er ec) with
      | none => rw [checkWord_eq_of_find?_none hfind]
      | some e =>
        rw [checkWord_eq_of_find?_some hfind] at hfalse
        simp at hfalse
    have hnogo : isGameOver (stepGuessCore st sr sc er ec) = false := by
      rw [hcore]
      simp only [isGameOver]
      simp [hsesscw, hunfound]
    constructor
    · rw [stepGuess_tries, hcore]
    · rw [stepGuess_eq_core_of_not_over hnogo, hcore]
      by_cases hz : st.numIncorrectTries - 1 = 0
      · simp [hz]
      · simp only [if_neg hz, hprog]
        constructor
        · intro hcontra
          exact absurd hcontra.symm (by simp)
        · intro hcontra
          exact absurd hcontra hz

/-- C5 witness: the incorrect-guess branch at the concrete wrong span
[0 0 0 1] on the CAT board, decrementing 20 to 19 with no draw. -/
theorem c5_budget_monotonic_draw_witness :
    (initEnv exGrid exIndex).status = .inProgress ∧
    (initEnv exGrid exIndex).session.correctWords.card
      ≠ (initEnv exGrid exIndex).placed.length ∧
    (inBounds (initEnv exGrid exIndex).board 0 0 0 1 = true →
      (0, 0, 0, 1) ∉ (initEnv exGrid exIndex).session.incorrectAttempts →
      (checkWord (initEnv exGrid exIndex).board (initEnv exGrid exIndex).placed
        (initEnv exGrid exIndex).session 0 0 0 1).1 = false →
      (stepGuess (initEnv exGrid exIndex) 0 0 0 1).numIncorrectTries
        = (initEnv exGrid exIndex).numIncorrectTries - 1 ∧
      ((stepGuess (initEnv exGrid exIndex) 0 0 0 1).status = .drawn ↔
        (initEnv exGrid exIndex).numIncorrectTries - 1 = 0)) :=
  ⟨rfl, by decide,
    (c5_budget_monotonic_draw (initEnv exGrid exIndex) 0 0 0 1 rfl (by decide)).2.2⟩

theorem card_le_of_subset_index {idx : PlacementIndex}
    (hnodup : (idx.map PlacedWord.text).Nodup) {s : Finset GameWord}
    (hsub : s ⊆ (idx.map PlacedWord.text).toFinset) : s.card ≤ idx.length := by
  have h1 := Finset.card_le_card hsub
  rw [List.toFinset_card_of_nodup hnodup, List.length_map] at h1
  exact h1

theorem stepGuessCore_session_facts (st : EnvState) (sr sc er ec : Nat) :
    st.session.correctWords ⊆ (stepGuessCore st sr sc er ec).session.correctWords ∧
    (stepGuessCore st sr sc er ec).session.correctWords ⊆
      st.session.correctWords ∪ (st.placed.map PlacedWord.text).toFinset ∧
    ((stepGuessCore st sr sc er ec).status = st.status ∨
      (stepGuessCore st sr sc er ec).status = .drawn) := by
  by_cases hin : inBounds st.board sr sc er ec = true
  · by_cases hdup : (sr, sc, er, ec) ∈ st.session.incorrectAttempts
    · rw [stepGuessCore_dup hin hdup]
      exact ⟨Finset.Subset.refl _, Finset.subset_union_left, Or.inl rfl⟩
    · by_cases hcw : (checkWord st.board st.placed st.session sr sc er ec).1 = true
      · rw [stepGuessCore_correct hin hdup hcw]
        obtain ⟨e, hfind, hsess, hmem⟩ := checkWord_true_exists_find hcw
        rw [hsess]
        refine ⟨Finset.subset_insert _ _, ?_, Or.inl rfl⟩
        intro x hx
        rcases Finset.mem_insert.mp hx with hxe | hxs
        · subst hxe
          exact Finset.mem_union_right _
            (List.mem_toFinset.mpr (List.mem_map.mpr ⟨e, hmem, rfl⟩))
        · exact Finset.mem_union_left _ hxs
      · rw [stepGuessCore_incorrect hin hdup (bool_ne_true_iff hcw)]
        rw [checkWord_false_session (bool_ne_true_iff hcw)]
        refine ⟨Finset.Subset.refl _, Finset.subset_union_left, ?_⟩
        by_cases hz : st.numIncorrectTries - 1 = 0
        · exact Or.inr (by simp [hz])
        · exact Or.inl (by simp [hz])
  · rw [stepGuessCore_oob hin]
    exact ⟨Finset.Subset.refl _, Finset.subset_union_left, Or.inl rfl⟩

theorem stepGuess_winInv {idx : PlacementIndex} {st : EnvState} (sr sc er ec : Nat)
    (hnodup : (idx.map PlacedWord.text).Nodup)
    (h : WinInv idx st) : WinInv idx (stepGuess st sr sc er ec) := by
  obtain ⟨hplaced, hsub, hlt, heq⟩ := h
  obtain ⟨hmono, hbound, hstatus⟩ := stepGuessCore_session_facts st sr sc er ec
  have hcoreplaced : (stepGuessCore st sr sc er ec).placed = idx :=
    (stepGuessCore_placed st sr sc er ec).trans hplaced
  have hsub1 : (stepGuessCore st sr sc er ec).session.correctWords ⊆
      (idx.map PlacedWord.text).toFinset := by
    intro x hx
    rcases Finset.mem_union.mp (hbound hx) with hxs | hxp
    · exact hsub hxs
    · rw [hplaced] at hxp
      exact hxp
  by_cases hgo : isGameOver (stepGuessCore st sr sc er ec) = true
  · rw [stepGuess_eq_won_of_over hgo]
    have hcard : (stepGuessCore st sr sc er ec).session.correctWords.card = idx.length := by
      have h1 : (stepGuessCore st sr sc er ec).session.correctWords.card
          = (stepGuessCore st sr sc er ec).placed.length := by
        simpa [isGameOver] using hgo
      rw [h1, hcoreplaced]
    exact ⟨hcoreplaced, hsub1, fun hcontra => absurd rfl hcontra, fun _ => hcard⟩
  · rw [stepGuess_eq_core_of_not_over (bool_ne_true_iff hgo)]
    have hcardne : (stepGuessCore st sr sc er ec).session.correctWords.card
        ≠ idx.length := by
      intro hcontra
      apply hgo
      simp only [isGameOver, decide_eq_true_eq]
      rw [hcoreplaced, hcontra]
    refine ⟨hcoreplaced, hsub1, ?_, ?_⟩
    · intro _
      exact lt_of_le_of_ne (card_le_of_subset_index hnodup hsub1) hcardne
    · intro hwon1
      rcases hstatus with hs | hs
      · have hcardst := heq (hs ▸ hwon1)
        have hge := Finset.card_le_card hmono
        have hle := card_le_of_subset_index hnodup hsub1
        omega
      · rw [hs] at hwon1
        cases hwon1

theorem runGuesses_winInv (idx : PlacementIndex)
    (hnodup : (idx.map PlacedWord.text).Nodup)
    (gs : List (Nat × Nat × Nat × Nat)) :
    ∀ st, WinInv idx st → WinInv idx (runGuesses st gs) := by
  induction gs with
  | nil => exact fun st h => h
  | cons q rest ih =>
    intro st h
    exact ih (stepGuess st q.1 q.2.1 q.2.2.1 q.2.2.2)
      (stepGuess_winInv q.1 q.2.1 q.2.2.1 q.2.2.2 hnodup h)

/-- C6. Win condition: starting an episode on a board with a non-empty
duplicate-free placement index, after any sequence of guesses the episode
is in the WON status only when every indexed word has been found
(`|correct_words| = |placed_words|`), and while it is not WON the found
count is strictly below the index size — the transition happens exactly
at equality, never before. -/
theorem c6_win_condition (g : Board) (idx : PlacementIndex)
    (gs : List (Nat × Nat × Nat × Nat))
    (hnodup : (idx.map PlacedWord.text).Nodup) (hne : 0 < idx.length) :
    ((runGuesses (initEnv g idx) gs).status ≠ .won →
      (runGuesses (initEnv g idx) gs).session.correctWords.card < idx.length) ∧
    ((runGuesses (initEnv g idx) gs).status = .won →
      (runGuesses (initEnv g idx) gs).session.correctWords.card = idx.length) := by
  have hbase : WinInv idx (initEnv g idx) := by
    refine ⟨rfl, ?_, ?_, ?_⟩
    · intro x hx
      simp [initEnv, freshSession] at hx
    · intro _
      simpa [initEnv, freshSession] using hne
    · intro hcontra
      cases hcontra
  have hinv := runGuesses_winInv idx hnodup gs (initEnv g idx) hbase
  exact ⟨hinv.2.2.1, hinv.2.2.2⟩

/-- C6 witness: on the CAT board, guessing the exact span then checking
the invariant components at the resulting state. -/
theorem c6_win_condition_witness :
    (exIndex.map PlacedWord.text).Nodup ∧ 0 < exIndex.length ∧
    (((runGuesses (initEnv exGrid exIndex) [(2, 1, 2, 3)]).status ≠ .won →
      (runGuesses (initEnv exGrid exIndex) [(2, 1, 2, 3)]).session.correctWords.card
        < exIndex.length) ∧
    ((runGuesses (initEnv exGrid exIndex) [(2, 1, 2, 3)]).status = .won →
      (runGuesses (initEnv exGrid exIndex) [(2, 1, 2, 3)]).session.correctWords.card
        = exIndex.length)) :=
  ⟨by decide, by decide,
    c6_win_condition exGrid exIndex [(2, 1, 2, 3)] (by decide) (by decide)⟩

/-- The length of the extracted word depends only on the span, never on
the grid contents. -/
theorem extractWord_length_eq (g1 g2 : Board) (sr sc er ec : Nat) :
    (extractWord g1 sr sc er ec).length = (extractWord g2 sr sc er ec).length := by
  unfold extractWord
  split_ifs <;> simp

/-- `_matches_position` reads nothing of the extracted word but its
length. -/
theorem matchesPosition_length_congr (w1 w2 : GameWord) (h : w1.length = w2.length)
    (row col : Nat) (d : Direction) (sr sc er ec : Nat) :
    matchesPosition w1 row col d sr sc er ec
      = matchesPosition w2 row col d sr sc er ec := by
  cases d <;> simp [matchesPosition, h]

/-- C9. Verifier letter-noninterference: for two grids of the same size
and the same placement index, verifying the same guess span yields the
same boolean result and the same session update (`correct_words`,
`highlighted_cells`, `incorrect_attempts`) — the outcome depends only on
the span coordinates and the index, never on the letters stored in the
grid. -/
theorem c9_letter_noninterference (g1 g2 : Board) (idx : PlacementIndex)
    (s : Session) (sr sc er ec : Nat)
    (hh : gridHeight g1 = gridHeight g2) (hw : gridWidth g1 = gridWidth g2) :
    checkWord g1 idx s sr sc er ec = checkWord g2 idx s sr sc er ec := by
  have hfind : idx.find?
      (fun e => matchesPosition (extractWord g1 sr sc er ec) e.row e.col e.dir sr sc er ec)
      = idx.find?
      (fun e => matchesPosition (extractWord g2 sr sc er ec) e.row e.col e.dir sr sc er ec) :=
    find?_congr idx _ _ (fun e => matchesPosition_length_congr _ _
      (extractWord_length_eq g1 g2 sr sc er ec) e.row e.col e.dir sr sc er ec)
  cases hfind2 : idx.find?
      (fun e => matchesPosition (extractWord g2 sr sc er ec) e.row e.col e.dir sr sc er ec) with
  | none =>
    rw [checkWord_eq_of_find?_none (hfind.trans hfind2),
      checkWord_eq_of_find?_none hfind2]
  | some e =>
    rw [checkWord_eq_of_find?_some (hfind.trans hfind2),
      checkWord_eq_of_find?_some hfind2]

/-- C9 witness: the CAT board versus a blank board of the same size give
the same verification outcome for the guess [2 1 2 3]. -/
theorem c9_letter_noninterference_witness :
    gridHeight exGrid = gridHeight (createEmptyGrid 4) ∧
    gridWidth exGrid = gridWidth (createEmptyGrid 4) ∧
    checkWord exGrid exIndex freshSession 2 1 2 3
      = checkWord (createEmptyGrid 4) exIndex freshSession 2 1 2 3 :=
  ⟨by decide, by decide,
    c9_letter_noninterference exGrid (createEmptyGrid 4) exIndex freshSession
      2 1 2 3 (by decide) (by decide)⟩

/-- C10. Repeated correct guesses are accepted: the duplicate check of
`step` consults only `incorrect_attempts`, which a successful
verification never touches, so replaying a span that just matched a
placed word is not rejected as a duplicate, verifies as true again, and
— by set semantics — leaves `correct_words`, `highlighted_cells` and the
remaining-tries counter unchanged. -/
theorem c10_repeat_correct_guess (st : EnvState) (sr sc er ec : Nat)
    (hin : inBounds st.board sr sc er ec = true)
    (hnd : (sr, sc, er, ec) ∉ st.session.incorrectAttempts)
    (hfirst : (checkWord st.board st.placed st.session sr sc er ec).1 = true) :
    (sr, sc, er, ec) ∉ (stepGuess st sr sc er ec).session.incorrectAttempts ∧
    (checkWord (stepGuess st sr sc er ec).board (stepGuess st sr sc er ec).placed
      (stepGuess st sr sc er ec).session sr sc er ec).1 = true ∧
    (stepGuess (stepGuess st sr sc er ec) sr sc er ec).session.correctWords
      = (stepGuess st sr sc er ec).session.correctWords ∧
    (stepGuess (stepGuess st sr sc er ec) sr sc er ec).session.highlighted
      = (stepGuess st sr sc er ec).session.highlighted ∧
    (stepGuess (stepGuess st sr sc er ec) sr sc er ec).numIncorrectTries
      = (stepGuess st sr sc er ec).numIncorrectTries := by
  obtain ⟨e, hfind, hsess, hmem⟩ := checkWord_true_exists_find hfirst
  have hstep1sess : (stepGuess st sr sc er ec).session = { st.session with
      correctWords := insert e.text st.session.correctWords
      highlighted := st.session.highlighted ∪ spanCells sr sc er ec } := by
    rw [stepGuess_session, stepGuessCore_correct hin hnd hfirst]
    exact hsess
  have hboard : (stepGuess st sr sc er ec).board = st.board := by
    rw [stepGuess_board, stepGuessCore_board_eq]
  have hplaced : (stepGuess st sr sc er ec).placed = st.placed := by
    rw [stepGuess_placed, stepGuessCore_placed]
  have hnd1 : (sr, sc, er, ec)
      ∉ (stepGuess st sr sc er ec).session.incorrectAttempts := by
    rw [hstep1sess]
    exact hnd
  have hsecond : checkWord (stepGuess st sr sc er ec).board
      (stepGuess st sr sc er ec).placed (stepGuess st sr sc er ec).session
      sr sc er ec
      = (true, { (stepGuess st sr sc er ec).session with
          correctWords := insert e.text (stepGuess st sr sc er ec).session.correctWords
          highlighted := (stepGuess st sr sc er ec).session.highlighted
            ∪ spanCells sr sc er ec }) := by
    apply checkWord_eq_of_find?_some
    rw [hboard, hplaced]
    exact hfind
  have hsecond1 : (checkWord (stepGuess st sr sc er ec).board
      (stepGuess st sr sc er ec).placed (stepGuess st sr sc er ec).session
      sr sc er ec).1 = true := by
    rw [hsecond]
  have hin1 : inBounds (stepGuess st sr sc er ec).board sr sc er ec = true := by
    rw [hboard]
    exact hin
  have hstep2sess : (stepGuess (stepGuess st sr sc er ec) sr sc er ec).session
      = (checkWord (stepGuess st sr sc er ec).board
        (stepGuess st sr sc er ec).placed (stepGuess st sr sc er ec).session
        sr sc er ec).2 := by
    rw [stepGuess_session, stepGuessCore_correct hin1 hnd1 hsecond1]
  refine ⟨hnd1, hsecond1, ?_, ?_, ?_⟩
  · rw [hstep2sess, hsecond, hstep1sess]
    simp [Finset.insert_idem]
  · rw [hstep2sess, hsecond, hstep1sess]
    simp [Finset.union_assoc]
  · rw [stepGuess_tries, stepGuessCore_correct hin1 hnd1 hsecond1]

/-- C10 witness: replaying the exact CAT span [2 1 2 3] right after it
was first found. -/
theorem c10_repeat_correct_guess_witness :
    inBounds (initEnv exGrid exIndex).board 2 1 2 3 = true ∧
    (2, 1, 2, 3) ∉ (initEnv exGrid exIndex).session.incorrectAttempts ∧
    ((2, 1, 2, 3) ∉ (stepGuess (initEnv exGrid exIndex) 2 1 2 3).session.incorrectAttempts ∧
      (checkWord (stepGuess (initEnv exGrid exIndex) 2 1 2 3).board
        (stepGuess (initEnv exGrid exIndex) 2 1 2 3).placed
        (stepGuess (initEnv exGrid exIndex) 2 1 2 3).session 2 1 2 3).1 = true ∧
      (stepGuess (stepGuess (initEnv exGrid exIndex) 2 1 2 3) 2 1 2 3).session.correctWords
        = (stepGuess (initEnv exGrid exIndex) 2 1 2 3).session.correctWords ∧
      (stepGuess (stepGuess (initEnv exGrid exIndex) 2 1 2 3) 2 1 2 3).session.highlighted
        = (stepGuess (initEnv exGrid exIndex) 2 1 2 3).session.highlighted ∧
      (stepGuess (stepGuess (initEnv exGrid exIndex) 2 1 2 3) 2 1 2 3).numIncorrectTries
        = (stepGuess (initEnv exGrid exIndex) 2 1 2 3).numIncorrectTries) :=
  ⟨by decide, by decide,
    c10_repeat_correct_guess (initEnv exGrid exIndex) 2 1 2 3
      (by decide) (by decide) (by decide)⟩

end WordSearch
